import Mathlib

/-!
Verification of the Redis-backed job-queue and pub/sub layer
(`pkg/redis/queue.go`, `pkg/redis/pubsub.go`).

The Go code is a thin client over a Redis store.  We embed it shallowly:
the store is an explicit state (`RedisState`) holding, per key, an ordered
list (Redis list, index 0 = left/head end) and a score-sorted set (Redis
sorted set, kept in ascending score order).  Times are Unix nanoseconds
passed explicitly where the Go code calls `time.Now()`; `time.Time.Unix()`
(whole seconds) is `unixSec`.  JSON serialization (`json.Marshal` /
`json.Unmarshal`) is embedded by the inductive `Serialized`: marshalling a
Job or Message is injective and unmarshalling inverts it, while `raw`
stands for arbitrary non-conforming bytes on which decoding fails.

The promotion path `ProcessDelayedQueue` issues its per-entry commands
through a go-redis `Pipeline()`.  A go-redis `Pipeline` batches commands
into one round trip but is not a MULTI/EXEC transaction, so the store
executes the queued commands one at a time and other clients can observe
every state between two commands; the embedding therefore exposes the
command list (`promoteCmds`) and its sequential execution (`execCmds`).

The `Subscription.Channel` forwarding goroutine and its interaction with
`Subscription.Close` are embedded as a small labelled transition system
(`PipeState`, `pstep`) following Go channel semantics: a goroutine blocked
in a send on a full buffered channel is released only by a receive on that
channel; closing a different (upstream) channel does not release it.
-/

namespace RedisModel

/-- A JSON-like structured value, for `map[string]interface{}` payloads. -/
inductive JsonVal
  | str (s : String)
  | num (n : Int)
  | boolean (b : Bool)
  | null
deriving DecidableEq

/-- Job record from queue.go: id, type, payload, created_at, retries.
`createdAt` is Unix nanoseconds; `0` models Go's zero `time.Time`
(`CreatedAt.IsZero()`). -/
structure Job where
  id : String
  type : String
  payload : List (String × JsonVal)
  createdAt : Nat
  retries : Int
deriving DecidableEq

/-- Message record from pubsub.go: channel, data, timestamp
(Unix nanoseconds). -/
structure Message where
  channel : String
  data : List (String × JsonVal)
  timestamp : Nat
deriving DecidableEq

/-- Serialized bytes stored in Redis: the `json.Marshal` image of a Job or
of a Message, or arbitrary other bytes (`raw`). -/
inductive Serialized
  | jobVal (j : Job)
  | msgVal (m : Message)
  | raw (s : String)
deriving DecidableEq

/-- Embeds `json.Unmarshal` of stored bytes into a `Job` (the Pop paths):
it inverts `json.Marshal` on marshalled Jobs and fails on non-conforming
bytes. -/
def unmarshalJob : Serialized → Option Job
  | .jobVal j => some j
  | _ => none

/-- Embeds `json.Unmarshal` of a received payload into a `Message`
(pubsub.go `Channel`): inverts `json.Marshal` on marshalled Messages; a
marshalled Job is a valid JSON object with none of the Message keys, so it
decodes to a zero-valued Message (Go fills absent fields with zero
values); `raw` bytes are not valid JSON and fail. -/
def unmarshalMessage : Serialized → Option Message
  | .msgVal m => some m
  | .jobVal _ => some ⟨"", [], 0⟩
  | .raw _ => none

/-- The wire text of a payload (`msg.Payload` is a string in go-redis).
Only payloads on which `unmarshalMessage` fails ever have their text
inspected (by the decode-failure fallback), so the text of decodable
payloads is irrelevant here and left empty. -/
def textOf : Serialized → String
  | .raw s => s
  | .jobVal _ => ""
  | .msgVal _ => ""

/-- Nanoseconds per second, for `time.Time.Unix()`. -/
def nsPerSec : Nat := 1000000000

/-- Embeds `t.Unix()`: whole Unix seconds of a nanosecond instant. -/
def unixSec (t : Nat) : Nat := t / nsPerSec

/-- The Redis store: per key, an ordered list (index 0 is the left end,
where `LPush` inserts) and a sorted set (ascending score order).  A key
absent from the store is an empty list / empty set, as in Redis. -/
structure RedisState where
  lists : String → List Serialized
  zsets : String → List (Serialized × Nat)

/-- Redis LPUSH: insert at the left end of the list. -/
def lpush (key : String) (v : Serialized) (st : RedisState) : RedisState :=
  { st with lists := fun k => if k = key then v :: st.lists key else st.lists k }

/-- Redis RPOP: remove and return the element at the right end of the
list, or `none` when the list is empty (`redis.Nil`).  BRPOP that times
out on an empty list gives the same `none` outcome. -/
def rpop (key : String) (st : RedisState) : Option Serialized × RedisState :=
  match (st.lists key).getLast? with
  | none => (none, st)
  | some v =>
      (some v,
       { st with lists := fun k => if k = key then (st.lists key).dropLast else st.lists k })

/-- Redis DEL: remove the key (list and set value alike) from the store. -/
def del (key : String) (st : RedisState) : RedisState :=
  { lists := fun k => if k = key then [] else st.lists k,
    zsets := fun k => if k = key then [] else st.zsets k }

/-- Insert a member into a score-sorted list, keeping ascending order
(ties: after existing members of equal score; the tie order is
store-dependent and no theorem below relies on it). -/
def zinsert (v : Serialized) (score : Nat) : List (Serialized × Nat) → List (Serialized × Nat)
  | [] => [(v, score)]
  | e :: rest => if score < e.2 then (v, score) :: e :: rest else e :: zinsert v score rest

/-- Redis ZADD: add the member with the score, updating the score
(removing the old entry) if the member is already present. -/
def zadd (key : String) (v : Serialized) (score : Nat) (st : RedisState) : RedisState :=
  { st with
    zsets := fun k =>
      if k = key then zinsert v score ((st.zsets key).filter (fun e => e.1 ≠ v))
      else st.zsets k }

/-- Redis ZREM: remove the member from the sorted set. -/
def zrem (key : String) (v : Serialized) (st : RedisState) : RedisState :=
  { st with
    zsets := fun k =>
      if k = key then (st.zsets key).filter (fun e => e.1 ≠ v) else st.zsets k }

/-- Redis ZRANGEBYSCORE with min = -inf: the members with score ≤ max, in
score order. -/
def zrangeByScoreLe (zset : List (Serialized × Nat)) (max : Nat) : List Serialized :=
  (zset.filter (fun e => e.2 ≤ max)).map Prod.fst

/-- The ID/timestamp defaulting shared by `Push` and `PushToDelayedQueue`
(queue.go lines 37-42 and 104-109): an empty ID becomes
`fmt.Sprintf("%d", time.Now().UnixNano())`, a zero CreatedAt becomes
`time.Now()`.  `now` is the current instant in Unix nanoseconds. -/
def defaultJob (job : Job) (now : Nat) : Job :=
  let j1 := if job.id = "" then { job with id := toString now } else job
  if j1.createdAt = 0 then { j1 with createdAt := now } else j1

/-- Embeds `Queue.Push`: default ID/CreatedAt, marshal, LPUSH onto the
named list.  The Go code mutates `job` through its pointer; the mutated
job is returned alongside the new store state. -/
def Push (queueName : String) (job : Job) (now : Nat) (st : RedisState) :
    Job × RedisState :=
  let j := defaultJob job now
  (j, lpush queueName (.jobVal j) st)

/-- Embeds `Queue.Pop`: BRPOP with a timeout.  `redis.Nil` (timeout on an
empty list) is mapped to `ok none` — no job, no error; otherwise the
payload is unmarshalled, a decode failure being an error.  The timeout
argument only bounds the blocking duration and does not affect the result
in this single-client model. -/
def Pop (queueName : String) (timeout : Nat) (st : RedisState) :
    Except String (Option Job) × RedisState :=
  match rpop queueName st with
  | (none, st1) => (.ok none, st1)
  | (some v, st1) =>
      match unmarshalJob v with
      | some j => (.ok (some j), st1)
      | none => (.error "queue - Pop - json.Unmarshal", st1)

/-- Embeds `Queue.PopNonBlocking`: RPOP; `redis.Nil` on an empty list is
`ok none` — no job, no error. -/
def PopNonBlocking (queueName : String) (st : RedisState) :
    Except String (Option Job) × RedisState :=
  match rpop queueName st with
  | (none, st1) => (.ok none, st1)
  | (some v, st1) =>
      match unmarshalJob v with
      | some j => (.ok (some j), st1)
      | none => (.error "queue - PopNonBlocking - json.Unmarshal", st1)

/-- Embeds `Queue.Size`: LLEN. -/
def Size (queueName : String) (st : RedisState) : Nat :=
  (st.lists queueName).length

/-- Embeds `Queue.Clear`: `DEL queueName` — deletes the single key
`queueName`. -/
def Clear (queueName : String) (st : RedisState) : RedisState :=
  del queueName st

/-- Embeds `Queue.PushToDelayedQueue`: same defaulting as `Push`; the
score is `time.Now().Add(delay).Unix()` — the whole-second part of
`now + delay` — and the marshalled job is ZADDed to the key
`queueName + ":delayed"`. -/
def PushToDelayedQueue (queueName : String) (job : Job) (now delay : Nat)
    (st : RedisState) : Job × RedisState :=
  let j := defaultJob job now
  let score := unixSec (now + delay)
  (j, zadd (queueName ++ ":delayed") (.jobVal j) score st)

/-- One Redis command issued by the promotion pipeline. -/
inductive Cmd
  | lpushCmd (key : String) (v : Serialized)
  | zremCmd (key : String) (v : Serialized)
deriving DecidableEq

/-- Execute one pipelined command on the store. -/
def execCmd : Cmd → RedisState → RedisState
  | .lpushCmd key v, st => lpush key v st
  | .zremCmd key v, st => zrem key v st

/-- Execute a command sequence in order.  go-redis `Pipeline()` batches
the commands into one round trip but is not a MULTI/EXEC transaction: the
store executes them one by one, so every intermediate state here is
observable by other clients. -/
def execCmds (cmds : List Cmd) (st : RedisState) : RedisState :=
  cmds.foldl (fun s c => execCmd c s) st

/-- The command sequence `ProcessDelayedQueue` queues on its pipeline: for
each ready value, LPUSH onto the live queue then ZREM from the delayed set
(queue.go lines 142-147). -/
def promoteCmds (queueName : String) (vals : List Serialized) : List Cmd :=
  vals.foldr (fun v acc =>
    .lpushCmd queueName v :: .zremCmd (queueName ++ ":delayed") v :: acc) []

/-- Embeds `Queue.ProcessDelayedQueue`: read `now = time.Now().Unix()`,
fetch the delayed members with score ≤ now, and if any, pipeline an LPUSH
onto the live queue and a ZREM from the delayed set for each; returns the
number of members moved. -/
def ProcessDelayedQueue (queueName : String) (now : Nat) (st : RedisState) :
    Nat × RedisState :=
  let nowSec := unixSec now
  let vals := zrangeByScoreLe (st.zsets (queueName ++ ":delayed")) nowSec
  if vals.length = 0 then (0, st)
  else (vals.length, execCmds (promoteCmds queueName vals) st)

/-- The fallback Message built by `Subscription.Channel` when
`json.Unmarshal` fails (pubsub.go lines 85-91): original channel name, a
data map with the single key `"raw"` holding the undecoded payload text,
and the current time as timestamp. -/
def fallbackMessage (channel : String) (payloadText : String) (now : Nat) : Message :=
  { channel := channel, data := [("raw", JsonVal.str payloadText)], timestamp := now }

/-- The body of `Subscription.Channel`'s forwarding loop for one received
raw message: try to unmarshal it into a Message; on failure synthesize the
fallback Message.  Every payload yields exactly one Message. -/
def forwardOne (channel : String) (payload : Serialized) (now : Nat) : Message :=
  match unmarshalMessage payload with
  | some m => m
  | none => fallbackMessage channel (textOf payload) now

/-- The forwarding loop over a finite trace of received raw messages
(channel name, payload, arrival instant): the sequence of Messages sent to
the consumer-facing channel. -/
def forwardAll (msgs : List (String × Serialized × Nat)) : List Message :=
  msgs.map (fun m => forwardOne m.1 m.2.1 m.2.2)

/-- Capacity of the consumer-facing channel `msgChan` in
`Subscription.Channel` (`make(chan *Message, 100)`). -/
def msgChanCap : Nat := 100

/-- Control state of the forwarding goroutine spawned by
`Subscription.Channel`: waiting on `range ch` for the next upstream
message, blocked in `msgChan <- &message` trying to hand a Message to the
consumer, or exited (after which `defer close(msgChan)` has run). -/
inductive FwdState
  | reading
  | sending (m : Message)
  | done
deriving DecidableEq

/-- State of one Subscription's delivery pipeline: whether
`Subscription.Close` has closed the upstream go-redis channel `ch`, the
buffered contents of `msgChan`, the goroutine's control state, and whether
`msgChan` has been closed (consumer sees end-of-stream). -/
structure PipeState where
  upstreamClosed : Bool
  buffer : List Message
  fwd : FwdState
  streamClosed : Bool
deriving DecidableEq

/-- Events of the delivery pipeline. -/
inductive PipeEvent
  | closeCall
  | deliver (channel : String) (payload : Serialized) (now : Nat)
  | sendComplete
  | consumerRead
  | observeUpstreamClosed
deriving DecidableEq

/-- Small-step semantics of the delivery pipeline, from Go channel
semantics:
`closeCall` (`Subscription.Close`) closes the upstream channel only;
`deliver` lets the goroutine receive an open-upstream message and compute
`forwardOne`; `sendComplete` finishes the pending `msgChan <- &message`
when the buffer has room; `consumerRead` removes the oldest buffered
Message; `observeUpstreamClosed` lets a goroutine waiting in `range ch`
see the closed upstream, exit the loop and run `defer close(msgChan)`.
`none` means the event is not enabled in the given state. -/
def pstep : PipeEvent → PipeState → Option PipeState
  | .closeCall, s => some { s with upstreamClosed := true }
  | .deliver ch p now, s =>
      if s.fwd = .reading ∧ s.upstreamClosed = false then
        some { s with fwd := .sending (forwardOne ch p now) }
      else none
  | .sendComplete, s =>
      match s.fwd with
      | .sending m =>
          if s.buffer.length < msgChanCap then
            some { s with buffer := s.buffer ++ [m], fwd := .reading }
          else none
      | _ => none
  | .consumerRead, s =>
      match s.buffer with
      | [] => none
      | _ :: rest => some { s with buffer := rest }
  | .observeUpstreamClosed, s =>
      if s.fwd = .reading ∧ s.upstreamClosed = true then
        some { s with fwd := .done, streamClosed := true }
      else none

/-- A store in which every key is empty, for concrete instances. -/
def exEmptyStore : RedisState := ⟨fun _ => [], fun _ => []⟩

/-- A concrete job with explicit id and timestamp. -/
def exJobA : Job := ⟨"a", "email", [("to", JsonVal.str "a@b.com")], 11, 0⟩

/-- A second concrete job with explicit id and timestamp. -/
def exJobB : Job := ⟨"b", "sms", [], 12, 1⟩

/-- A concrete job used in the delayed-queue instances. -/
def exDelayedJob : Job := ⟨"j1", "email", [("to", JsonVal.str "a@b.com")], 1, 0⟩

/-- A store whose delayed set for queue `"q"` holds one ready entry with
score 3. -/
def exStC3 : RedisState :=
  ⟨fun _ => [], fun k => if k = "q" ++ ":delayed" then [(Serialized.jobVal exDelayedJob, 3)] else []⟩

/-- The ready members the promotion call at instant 5000000000 ns finds in
`exStC3`. -/
def c3vals : List Serialized :=
  zrangeByScoreLe (exStC3.zsets ("q" ++ ":delayed")) (unixSec 5000000000)

/-- A concrete job with neither id nor created_at set. -/
def exJobNoId : Job := ⟨"", "email", [("k", JsonVal.null)], 0, 2⟩

/-- A concrete delivered Message. -/
def exMsgA : Message := ⟨"updates", [("x", JsonVal.num 1)], 5⟩

/-- A second concrete Message, the one the forwarder is stuck sending. -/
def exMsgB : Message := ⟨"updates", [("x", JsonVal.num 2)], 6⟩

/-- A pipeline state whose consumer buffer is full and whose forwarding
goroutine is blocked in `msgChan <- &message`. -/
def blockedPipe : PipeState :=
  ⟨false, List.replicate msgChanCap exMsgA, .sending exMsgB, false⟩

end RedisModel

namespace RedisModel

/-- Helper: `Nat.toDigitsCore` never shrinks its accumulator. -/
theorem toDigitsCore_length_le (b : Nat) :
    ∀ (fuel n : Nat) (ds : List Char), ds.length ≤ (Nat.toDigitsCore b fuel n ds).length := by
  intro fuel
  induction fuel with
  | zero => intro n ds; simp [Nat.toDigitsCore]
  | succ fuel ih =>
      intro n ds
      simp only [Nat.toDigitsCore]
      split
      · simp
      · exact le_trans (by simp) (ih _ _)

/-- Helper: the decimal rendering of a natural number is never the empty
string, so a defaulted job ID is never empty. -/
theorem toString_nat_ne_empty (n : Nat) : toString n ≠ "" := by
  show (Nat.toDigits 10 n).asString ≠ ""
  have h : 1 ≤ (Nat.toDigits 10 n).length := by
    show 1 ≤ (Nat.toDigitsCore 10 (n + 1) n []).length
    simp only [Nat.toDigitsCore]
    split
    · simp
    · exact le_trans (by simp) (toDigitsCore_length_le 10 n _ _)
  intro hcontra
  have h2 : Nat.toDigits 10 n = [] := congrArg String.data hcontra
  rw [h2] at h
  simp at h

/-- Helper: defaulting never touches the retries counter. -/
theorem defaultJob_retries (j : Job) (t : Nat) : (defaultJob j t).retries = j.retries := by
  simp only [defaultJob]
  split <;> split <;> rfl

/-- Helper: defaulting is the identity on a job whose id and created_at
are already set. -/
theorem defaultJob_of_set (j : Job) (t : Nat) (hid : j.id ≠ "") (hts : j.createdAt ≠ 0) :
    defaultJob j t = j := by
  simp [defaultJob, hid, hts]

/-- Helper: a freshly inserted member is in the sorted set. -/
theorem zinsert_self_mem (v : Serialized) (s : Nat) (l : List (Serialized × Nat)) :
    (v, s) ∈ zinsert v s l := by
  induction l with
  | nil => simp [zinsert]
  | cons e rest ih =>
      simp only [zinsert]
      split
      · exact List.mem_cons_self _ _
      · exact List.mem_cons_of_mem _ ih

/-- Helper: pushing onto an empty delayed set leaves exactly the one
entry, scored with the whole-second part of `now + delay`. -/
theorem pushDelayed_zsets (q : String) (j : Job) (now delay : Nat) (st : RedisState)
    (hdq : st.zsets (q ++ ":delayed") = []) :
    (PushToDelayedQueue q j now delay st).2.zsets (q ++ ":delayed")
      = [(Serialized.jobVal (defaultJob j now), unixSec (now + delay))] := by
  simp [PushToDelayedQueue, zadd, hdq, zinsert]

/-- Helper: a delayed push does not touch any list. -/
theorem pushDelayed_lists (q : String) (j : Job) (now delay : Nat) (st : RedisState) :
    (PushToDelayedQueue q j now delay st).2.lists = st.lists := rfl

/-- Helper: promoting a store whose delayed set holds exactly one ready
entry moves it: count 1, the entry lands on the live list, the delayed set
empties, and a non-blocking pop returns the job. -/
theorem promote_singleton (q : String) (dj : Job) (score t : Nat) (st : RedisState)
    (hdq : st.zsets (q ++ ":delayed") = [(Serialized.jobVal dj, score)])
    (hq : st.lists q = []) (ht : score ≤ unixSec t) :
    (ProcessDelayedQueue q t st).1 = 1
    ∧ (ProcessDelayedQueue q t st).2.lists q = [Serialized.jobVal dj]
    ∧ (ProcessDelayedQueue q t st).2.zsets (q ++ ":delayed") = []
    ∧ (PopNonBlocking q (ProcessDelayedQueue q t st).2).1 = .ok (some dj) := by
  simp [ProcessDelayedQueue, zrangeByScoreLe, hdq, ht, promoteCmds, execCmds, execCmd,
        lpush, zrem, hq, PopNonBlocking, rpop, unmarshalJob]

/-- Helper: no pipelined command ever adds to a sorted set — the entries
of any key's sorted set after a batch are among the entries before it. -/
theorem execCmds_zsets_subset (cmds : List Cmd) :
    ∀ (st : RedisState) (k : String), (execCmds cmds st).zsets k ⊆ st.zsets k := by
  induction cmds with
  | nil => intro st k; simp [execCmds]
  | cons c rest ih =>
      intro st k e he
      have h1 : e ∈ (execCmd c st).zsets k := ih (execCmd c st) k he
      cases c with
      | lpushCmd key v => exact h1
      | zremCmd key v =>
          by_cases hk : k = key
          · subst hk
            simp only [execCmd, zrem, if_pos rfl] at h1
            exact List.mem_of_mem_filter h1
          · simpa [execCmd, zrem, hk] using h1

/-- Helper: a queue's delayed-set key is distinct from its live-list key. -/
theorem delayed_key_ne (q : String) : (q ++ ":delayed") ≠ q := by
  intro h
  have h1 := congrArg String.length h
  rw [String.length_append] at h1
  have h2 : (":delayed" : String).length = 8 := by decide
  omega

/-- Helper: executing the promotion batch prepends the moved values, in
traversal order, onto the live list. -/
theorem execCmds_promote_lists (q : String) :
    ∀ (vals : List Serialized) (st : RedisState),
      (execCmds (promoteCmds q vals) st).lists q = vals.reverse ++ st.lists q := by
  intro vals
  induction vals with
  | nil => intro st; simp [promoteCmds, execCmds]
  | cons v vs ih =>
      intro st
      show (execCmds (promoteCmds q vs) (zrem (q ++ ":delayed") v (lpush q v st))).lists q = _
      rw [ih]
      simp [zrem, lpush]

/-- Helper: executing the promotion batch removes from the delayed set
exactly the entries whose member was moved. -/
theorem execCmds_promote_zsets (q : String) :
    ∀ (vals : List Serialized) (st : RedisState),
      (execCmds (promoteCmds q vals) st).zsets (q ++ ":delayed")
        = (st.zsets (q ++ ":delayed")).filter (fun e => decide (e.1 ∉ vals)) := by
  intro vals
  induction vals with
  | nil => intro st; simp [promoteCmds, execCmds]
  | cons v vs ih =>
      intro st
      show (execCmds (promoteCmds q vs)
        (zrem (q ++ ":delayed") v (lpush q v st))).zsets (q ++ ":delayed") = _
      rw [ih]
      simp only [zrem, lpush]
      rw [if_pos trivial, List.filter_filter]
      apply List.filter_congr
      intro e _
      by_cases h1 : e.1 = v <;> by_cases h2 : e.1 ∈ vs <;> simp [h1, h2]

/-- Helper: in a sorted set with pairwise-distinct members (the Redis
sorted-set invariant), an entry is determined by its member. -/
theorem mem_fst_unique {zs : List (Serialized × Nat)}
    (hu : zs.Pairwise (fun a b => a.1 ≠ b.1)) :
    ∀ {e x : Serialized × Nat}, e ∈ zs → x ∈ zs → e.1 = x.1 → e = x := by
  induction zs with
  | nil => intro e x he; cases he
  | cons a rest ih =>
      intro e x he hx hfst
      rcases List.pairwise_cons.mp hu with ⟨ha, hrest⟩
      rcases List.mem_cons.mp he with he1 | he1 <;> rcases List.mem_cons.mp hx with hx1 | hx1
      · rw [he1, hx1]
      · exact absurd hfst (by rw [he1]; exact ha x hx1)
      · exact absurd hfst.symm (by rw [hx1]; exact ha e he1)
      · exact ih hrest he1 hx1 hfst

end RedisModel

namespace RedisModel

/-- C1: Single-consumer FIFO — pushing J1 then J2 onto an otherwise idle
queue and then popping twice, with the blocking or the non-blocking pop,
yields J1 first and J2 second (each as stored, i.e. after the in-place
ID/timestamp defaulting `Push` performs on its argument). -/
theorem c1_fifo (q : String) (j1 j2 : Job) (t1 t2 tm1 tm2 : Nat)
    (st : RedisState) (hempty : st.lists q = []) :
    ((Pop q tm1 (Push q j2 t2 (Push q j1 t1 st).2).2).1
        = .ok (some (Push q j1 t1 st).1)
      ∧ (Pop q tm2 (Pop q tm1 (Push q j2 t2 (Push q j1 t1 st).2).2).2).1
        = .ok (some (Push q j2 t2 (Push q j1 t1 st).2).1))
    ∧ ((PopNonBlocking q (Push q j2 t2 (Push q j1 t1 st).2).2).1
        = .ok (some (Push q j1 t1 st).1)
      ∧ (PopNonBlocking q (PopNonBlocking q (Push q j2 t2 (Push q j1 t1 st).2).2).2).1
        = .ok (some (Push q j2 t2 (Push q j1 t1 st).2).1)) := by
  simp [Pop, PopNonBlocking, Push, rpop, lpush, hempty, unmarshalJob]

/-- Witness for C1 at a concrete queue, two concrete jobs and an empty
store. -/
theorem c1_fifo_witness :
    exEmptyStore.lists "jobs" = []
    ∧ (((Pop "jobs" 5 (Push "jobs" exJobB 7 (Push "jobs" exJobA 6 exEmptyStore).2).2).1
          = .ok (some (Push "jobs" exJobA 6 exEmptyStore).1)
        ∧ (Pop "jobs" 5
            (Pop "jobs" 5 (Push "jobs" exJobB 7 (Push "jobs" exJobA 6 exEmptyStore).2).2).2).1
          = .ok (some (Push "jobs" exJobB 7 (Push "jobs" exJobA 6 exEmptyStore).2).1))
      ∧ ((PopNonBlocking "jobs" (Push "jobs" exJobB 7 (Push "jobs" exJobA 6 exEmptyStore).2).2).1
          = .ok (some (Push "jobs" exJobA 6 exEmptyStore).1)
        ∧ (PopNonBlocking "jobs"
            (PopNonBlocking "jobs"
              (Push "jobs" exJobB 7 (Push "jobs" exJobA 6 exEmptyStore).2).2).2).1
          = .ok (some (Push "jobs" exJobB 7 (Push "jobs" exJobA 6 exEmptyStore).2).1))) :=
  ⟨rfl, c1_fifo "jobs" exJobA exJobB 6 7 5 5 exEmptyStore rfl⟩

/-- C2 counterexample: the claim "calling promote before D has elapsed
moves 0 entries" is false.  A job is pushed at instant 0.5 s with delay
0.4 s; promote is called 1 ns later — long before the 0.4 s delay has
elapsed — yet it moves the entry (returns 1, not 0), because the score is
truncated to whole seconds: `unixSec (500000000 + 400000000) = 0 ≤ 0 =
unixSec 500000001`. -/
theorem c2_counterexample :
    (500000001 < 500000000 + 400000000)
    ∧ (ProcessDelayedQueue "jobs" 500000001
        (PushToDelayedQueue "jobs" ⟨"j1", "email", [], 1, 0⟩ 500000000 400000000
          exEmptyStore).2).1 = 1 :=
  ⟨by norm_num, by rfl⟩

/-- C2 amended: promotion is time-gated at whole-second granularity.
Pushing a job with delay D into an empty delayed set, promote moves 0
entries (and leaves the store untouched) when called at an instant whose
Unix second is still strictly below the entry's score
`unixSec (now + delay)`; once D has elapsed, promote moves exactly that
one entry, returns 1, and the entry becomes poppable from the live
queue. -/
theorem c2_time_gated (q : String) (j : Job) (now delay t1 t2 : Nat) (st : RedisState)
    (hdq : st.zsets (q ++ ":delayed") = []) (hq : st.lists q = [])
    (h1 : unixSec t1 < unixSec (now + delay)) (h2 : now + delay ≤ t2) :
    (ProcessDelayedQueue q t1 (PushToDelayedQueue q j now delay st).2).1 = 0
    ∧ (ProcessDelayedQueue q t1 (PushToDelayedQueue q j now delay st).2).2
        = (PushToDelayedQueue q j now delay st).2
    ∧ (ProcessDelayedQueue q t2 (PushToDelayedQueue q j now delay st).2).1 = 1
    ∧ (PopNonBlocking q (ProcessDelayedQueue q t2 (PushToDelayedQueue q j now delay st).2).2).1
        = .ok (some (PushToDelayedQueue q j now delay st).1) := by
  have hz := pushDelayed_zsets q j now delay st hdq
  have hl : (PushToDelayedQueue q j now delay st).2.lists q = [] := by
    rw [pushDelayed_lists]; exact hq
  have hnot : ¬ (unixSec (now + delay) ≤ unixSec t1) := by omega
  have hle : unixSec (now + delay) ≤ unixSec t2 := Nat.div_le_div_right h2
  have hs := promote_singleton q (defaultJob j now) (unixSec (now + delay)) t2 _ hz hl hle
  refine ⟨?_, ?_, hs.1, hs.2.2.2⟩
  · simp [ProcessDelayedQueue, zrangeByScoreLe, hz, hnot]
  · simp [ProcessDelayedQueue, zrangeByScoreLe, hz, hnot]

/-- Witness for the amended C2: push at 1 s with a 2 s delay; promote at
1.000000001 s moves nothing, promote at 3 s moves the entry and it pops. -/
theorem c2_time_gated_witness :
    exEmptyStore.zsets ("jobs" ++ ":delayed") = []
    ∧ exEmptyStore.lists "jobs" = []
    ∧ unixSec 1000000001 < unixSec (1000000000 + 2000000000)
    ∧ 1000000000 + 2000000000 ≤ 3000000000
    ∧ ((ProcessDelayedQueue "jobs" 1000000001
          (PushToDelayedQueue "jobs" exDelayedJob 1000000000 2000000000 exEmptyStore).2).1 = 0
      ∧ (ProcessDelayedQueue "jobs" 1000000001
          (PushToDelayedQueue "jobs" exDelayedJob 1000000000 2000000000 exEmptyStore).2).2
          = (PushToDelayedQueue "jobs" exDelayedJob 1000000000 2000000000 exEmptyStore).2
      ∧ (ProcessDelayedQueue "jobs" 3000000000
          (PushToDelayedQueue "jobs" exDelayedJob 1000000000 2000000000 exEmptyStore).2).1 = 1
      ∧ (PopNonBlocking "jobs"
          (ProcessDelayedQueue "jobs" 3000000000
            (PushToDelayedQueue "jobs" exDelayedJob 1000000000 2000000000 exEmptyStore).2).2).1
          = .ok (some (PushToDelayedQueue "jobs" exDelayedJob 1000000000 2000000000 exEmptyStore).1)) :=
  ⟨rfl, rfl, by decide, by norm_num,
    c2_time_gated "jobs" exDelayedJob 1000000000 2000000000 1000000001 3000000000 exEmptyStore
      rfl rfl (by decide) (by norm_num)⟩

/-- C3 counterexample: the promotion batch is not atomic.  On a store with
one ready delayed entry the call pipelines exactly two commands, LPUSH
then ZREM; after the first command alone the entry is already on the live
list while still in the delayed set — a state in which some but not all of
the call's inserts/removals have taken effect, observable by any other
client because go-redis `Pipeline()` is not a MULTI/EXEC transaction.  The
last conjunct ties the pipeline to the call: the promote call's final
state is exactly the sequential execution of that command batch. -/
theorem c3_counterexample :
    promoteCmds "q" c3vals
      = [Cmd.lpushCmd "q" (Serialized.jobVal exDelayedJob),
         Cmd.zremCmd ("q" ++ ":delayed") (Serialized.jobVal exDelayedJob)]
    ∧ (execCmds ((promoteCmds "q" c3vals).take 1) exStC3).lists "q"
        = [Serialized.jobVal exDelayedJob]
    ∧ (execCmds ((promoteCmds "q" c3vals).take 1) exStC3).zsets ("q" ++ ":delayed")
        = [(Serialized.jobVal exDelayedJob, 3)]
    ∧ (execCmds (promoteCmds "q" c3vals) exStC3).lists "q"
        = [Serialized.jobVal exDelayedJob]
    ∧ (execCmds (promoteCmds "q" c3vals) exStC3).zsets ("q" ++ ":delayed") = []
    ∧ (ProcessDelayedQueue "q" 5000000000 exStC3).2.lists "q"
        = (execCmds (promoteCmds "q" c3vals) exStC3).lists "q" :=
  ⟨rfl, rfl, rfl, rfl, rfl, rfl⟩

/-- C3 amended: the promote call issues all its inserts/removals as one
in-order pipelined batch whose final effect is complete — it returns the
number of ready entries, prepends exactly those entries to the live list,
and removes exactly those entries from the delayed set (members being
pairwise distinct, the Redis sorted-set invariant) — but the batch is not
transactional, so the partially-applied states between its commands are
observable by other clients. -/
theorem c3_promote_batch (q : String) (now : Nat) (st : RedisState)
    (hu : (st.zsets (q ++ ":delayed")).Pairwise (fun a b => a.1 ≠ b.1)) :
    (ProcessDelayedQueue q now st).1
      = (zrangeByScoreLe (st.zsets (q ++ ":delayed")) (unixSec now)).length
    ∧ (ProcessDelayedQueue q now st).2.lists q
      = (zrangeByScoreLe (st.zsets (q ++ ":delayed")) (unixSec now)).reverse ++ st.lists q
    ∧ (ProcessDelayedQueue q now st).2.zsets (q ++ ":delayed")
      = (st.zsets (q ++ ":delayed")).filter (fun e => unixSec now < e.2) := by
  have hmem : ∀ e ∈ st.zsets (q ++ ":delayed"),
      (e.1 ∈ zrangeByScoreLe (st.zsets (q ++ ":delayed")) (unixSec now) ↔ e.2 ≤ unixSec now) := by
    intro e he
    constructor
    · intro hin
      rcases List.mem_map.mp hin with ⟨x, hxf, hxe⟩
      have hx2 := List.mem_of_mem_filter hxf
      have hle : x.2 ≤ unixSec now := by
        have := List.of_mem_filter hxf
        simpa using this
      have hex : e = x := mem_fst_unique hu he hx2 hxe.symm
      rw [hex]; exact hle
    · intro hle
      exact List.mem_map.mpr ⟨e, List.mem_filter.mpr ⟨he, by simpa using hle⟩, rfl⟩
  by_cases h0 : (zrangeByScoreLe (st.zsets (q ++ ":delayed")) (unixSec now)).length = 0
  · have hnil : zrangeByScoreLe (st.zsets (q ++ ":delayed")) (unixSec now) = [] :=
      List.length_eq_zero.mp h0
    have hall : ∀ e ∈ st.zsets (q ++ ":delayed"), unixSec now < e.2 := by
      intro e he
      by_contra hcon
      have hle : e.2 ≤ unixSec now := by omega
      have hm := (hmem e he).mpr hle
      rw [hnil] at hm
      cases hm
    have hfe : (st.zsets (q ++ ":delayed")).filter (fun e => unixSec now < e.2)
        = st.zsets (q ++ ":delayed") :=
      List.filter_eq_self.mpr (fun e he => by simpa using hall e he)
    refine ⟨?_, ?_, ?_⟩
    · simp [ProcessDelayedQueue, h0]
    · simp [ProcessDelayedQueue, h0, hnil]
    · simp [ProcessDelayedQueue, h0, hfe]
  · refine ⟨?_, ?_, ?_⟩
    · simp [ProcessDelayedQueue, h0]
    · simp only [ProcessDelayedQueue, if_neg h0]
      exact execCmds_promote_lists q _ st
    · simp only [ProcessDelayedQueue, if_neg h0]
      rw [execCmds_promote_zsets]
      apply List.filter_congr
      intro e he
      by_cases hl : e.2 ≤ unixSec now
      · have hin : e.1 ∈ zrangeByScoreLe (st.zsets (q ++ ":delayed")) (unixSec now) :=
          (hmem e he).mpr hl
        have hgt : ¬ (unixSec now < e.2) := by omega
        simp [hin, hgt]
      · have hnin : e.1 ∉ zrangeByScoreLe (st.zsets (q ++ ":delayed")) (unixSec now) :=
          fun hin => hl ((hmem e he).mp hin)
        have hgt : unixSec now < e.2 := by omega
        simp [hnin, hgt]

/-- Witness for the amended C3 on the store with one ready entry. -/
theorem c3_promote_batch_witness :
    (exStC3.zsets ("q" ++ ":delayed")).Pairwise (fun a b => a.1 ≠ b.1)
    ∧ ((ProcessDelayedQueue "q" 5000000000 exStC3).1
        = (zrangeByScoreLe (exStC3.zsets ("q" ++ ":delayed")) (unixSec 5000000000)).length
      ∧ (ProcessDelayedQueue "q" 5000000000 exStC3).2.lists "q"
        = (zrangeByScoreLe (exStC3.zsets ("q" ++ ":delayed")) (unixSec 5000000000)).reverse
            ++ exStC3.lists "q"
      ∧ (ProcessDelayedQueue "q" 5000000000 exStC3).2.zsets ("q" ++ ":delayed")
        = (exStC3.zsets ("q" ++ ":delayed")).filter (fun e => unixSec 5000000000 < e.2)) :=
  ⟨by simp [exStC3], c3_promote_batch "q" 5000000000 exStC3 (by simp [exStC3])⟩

/-- C4: Decode-failure recovery — when deserialization of a received
payload fails, the forwarded Message is exactly the synthesized fallback:
the original channel name, a data map whose single key `"raw"` holds the
undecoded payload, and the current time as timestamp; and the forwarding
loop emits exactly one Message per inbound payload, so nothing is dropped
and no decode error reaches the consumer. -/
theorem c4_decode_fallback (channel : String) (p : Serialized) (now : Nat)
    (hfail : unmarshalMessage p = none) :
    forwardOne channel p now = fallbackMessage channel (textOf p) now
    ∧ (forwardOne channel p now).channel = channel
    ∧ (forwardOne channel p now).data = [("raw", JsonVal.str (textOf p))]
    ∧ (forwardOne channel p now).timestamp = now
    ∧ ∀ msgs : List (String × Serialized × Nat), (forwardAll msgs).length = msgs.length := by
  refine ⟨?_, ?_, ?_, ?_, ?_⟩ <;> simp [forwardOne, hfail, fallbackMessage, forwardAll]

/-- Witness for C4 at the concrete non-conforming payload `"oops"`. -/
theorem c4_decode_fallback_witness :
    unmarshalMessage (Serialized.raw "oops") = none
    ∧ forwardOne "updates" (Serialized.raw "oops") 7 = fallbackMessage "updates" "oops" 7
    ∧ (forwardOne "updates" (Serialized.raw "oops") 7).data = [("raw", JsonVal.str "oops")] :=
  ⟨rfl, (c4_decode_fallback "updates" (Serialized.raw "oops") 7 rfl).1,
    (c4_decode_fallback "updates" (Serialized.raw "oops") 7 rfl).2.2.1⟩

/-- C5: evaluation of the code at the failing configuration.  In the state
`blockedPipe` — consumer buffer full, forwarding goroutine blocked in
`msgChan <- &message` — calling `Subscription.Close` only closes the
upstream go-redis channel: afterwards the goroutine is still blocked on
the same send (`fwd` unchanged), the consumer stream is not closed, and
neither the pending send (buffer still full) nor the loop-exit step
(goroutine not back in `range ch`) is enabled.  So close does not release
the block, terminate the forwarder, or close the stream, contradicting the
claim; only a consumer read can unblock it. -/
theorem c5_close_leaves_sender_blocked :
    blockedPipe.fwd = .sending exMsgB
    ∧ blockedPipe.buffer.length = msgChanCap
    ∧ pstep .closeCall blockedPipe
        = some ⟨true, List.replicate msgChanCap exMsgA, .sending exMsgB, false⟩
    ∧ (⟨true, List.replicate msgChanCap exMsgA, .sending exMsgB, false⟩ : PipeState).fwd
        = .sending exMsgB
    ∧ (⟨true, List.replicate msgChanCap exMsgA, .sending exMsgB, false⟩ : PipeState).streamClosed
        = false
    ∧ pstep .sendComplete
        (⟨true, List.replicate msgChanCap exMsgA, .sending exMsgB, false⟩ : PipeState) = none
    ∧ pstep .observeUpstreamClosed
        (⟨true, List.replicate msgChanCap exMsgA, .sending exMsgB, false⟩ : PipeState) = none :=
  ⟨rfl, by simp [blockedPipe], rfl, rfl, rfl, by decide, rfl⟩

/-- Supporting analysis for C5: from any blocked-on-full-buffer state,
`Close` succeeds immediately but leaves the forwarder blocked, and no
event other than a consumer read changes that; once the consumer reads,
the pending send completes, the forwarder observes the closed upstream,
terminates, and the consumer stream closes (end-of-stream). -/
theorem c5_close_blocked_until_drain (s : PipeState) (m : Message)
    (hfwd : s.fwd = .sending m) (hfull : s.buffer.length = msgChanCap)
    (hopen : s.streamClosed = false) :
    ∃ s1, pstep .closeCall s = some s1
    ∧ s1.fwd = .sending m
    ∧ s1.streamClosed = false
    ∧ (∀ e : PipeEvent, e ≠ .consumerRead → ∀ s2, pstep e s1 = some s2 → s2.fwd = .sending m)
    ∧ ∃ s2 s3 s4, pstep .consumerRead s1 = some s2
        ∧ pstep .sendComplete s2 = some s3
        ∧ pstep .observeUpstreamClosed s3 = some s4
        ∧ s4.fwd = .done ∧ s4.streamClosed = true := by
  refine ⟨{ s with upstreamClosed := true }, rfl, hfwd, hopen, ?_, ?_⟩
  · intro e he s2 hstep
    cases e with
    | closeCall => cases hstep; exact hfwd
    | deliver ch p now =>
        simp only [pstep, hfwd] at hstep
        simp at hstep
    | sendComplete =>
        simp only [pstep, hfwd] at hstep
        rw [if_neg (by simp [hfull])] at hstep
        cases hstep
    | consumerRead => exact absurd rfl he
    | observeUpstreamClosed =>
        simp only [pstep, hfwd] at hstep
        simp at hstep
  · rcases hb : s.buffer with _ | ⟨b, rest⟩
    · rw [hb] at hfull; simp [msgChanCap] at hfull
    · refine ⟨{ s with upstreamClosed := true, buffer := rest },
        { s with upstreamClosed := true, buffer := rest ++ [m], fwd := .reading },
        { s with upstreamClosed := true, buffer := rest ++ [m], fwd := .done, streamClosed := true },
        ?_, ?_, ?_, rfl, rfl⟩
      · simp [pstep, hb]
      · simp only [pstep, hfwd]
        rw [if_pos]
        have hr : rest.length + 1 = msgChanCap := by
          rw [hb] at hfull; simpa using hfull
        omega
      · simp [pstep]

/-- C6: Push-then-pop round trip — a job pushed with an explicit non-empty
id and non-zero created_at is returned by the subsequent pop with all five
fields (type, payload, id, created_at, retries) identical; and the
defaulting applied on every enqueue path never changes the retries
counter. -/
theorem c6_roundtrip (q : String) (j : Job) (t tm : Nat) (st : RedisState)
    (hid : j.id ≠ "") (hts : j.createdAt ≠ 0) (hempty : st.lists q = []) :
    (Pop q tm (Push q j t st).2).1 = .ok (some j)
    ∧ ∀ (j2 : Job) (t2 : Nat), (defaultJob j2 t2).retries = j2.retries := by
  constructor
  · simp [Pop, Push, rpop, lpush, hempty, unmarshalJob, defaultJob_of_set j t hid hts]
  · exact fun j2 t2 => defaultJob_retries j2 t2

/-- Witness for C6 at a concrete job with explicit id and timestamp. -/
theorem c6_roundtrip_witness :
    exJobA.id ≠ "" ∧ exJobA.createdAt ≠ 0
    ∧ (Pop "jobs" 5 (Push "jobs" exJobA 100 exEmptyStore).2).1 = .ok (some exJobA) :=
  ⟨by decide, by decide,
    (c6_roundtrip "jobs" exJobA 100 5 exEmptyStore (by decide) (by decide) rfl).1⟩

/-- C7: Defaulting on enqueue — a job pushed (immediately or delayed) at a
non-zero instant is stored with a non-empty id and a non-zero created_at;
fields that were already set are kept; and the stored list entry is
exactly the marshalled defaulted job. -/
theorem c7_defaulting (q : String) (j : Job) (now delay : Nat)
    (st : RedisState) (hnow : now ≠ 0) :
    ((Push q j now st).1.id ≠ "" ∧ (Push q j now st).1.createdAt ≠ 0
      ∧ (PushToDelayedQueue q j now delay st).1.id ≠ ""
      ∧ (PushToDelayedQueue q j now delay st).1.createdAt ≠ 0)
    ∧ (j.id ≠ "" → (Push q j now st).1.id = j.id
        ∧ (PushToDelayedQueue q j now delay st).1.id = j.id)
    ∧ (j.createdAt ≠ 0 → (Push q j now st).1.createdAt = j.createdAt
        ∧ (PushToDelayedQueue q j now delay st).1.createdAt = j.createdAt)
    ∧ (Push q j now st).2.lists q = .jobVal (Push q j now st).1 :: st.lists q := by
  have hid : (defaultJob j now).id ≠ "" := by
    by_cases hji : j.id = "" <;> by_cases hjc : j.createdAt = 0 <;>
      simp [defaultJob, hji, hjc, toString_nat_ne_empty]
  have hts : (defaultJob j now).createdAt ≠ 0 := by
    by_cases hji : j.id = "" <;> by_cases hjc : j.createdAt = 0 <;>
      simp [defaultJob, hji, hjc, hnow]
  have hkid : j.id ≠ "" → (defaultJob j now).id = j.id := by
    intro h
    by_cases hjc : j.createdAt = 0 <;> simp [defaultJob, h, hjc]
  have hkts : j.createdAt ≠ 0 → (defaultJob j now).createdAt = j.createdAt := by
    intro h
    by_cases hji : j.id = "" <;> simp [defaultJob, hji, h]
  refine ⟨⟨hid, hts, hid, hts⟩, fun h => ⟨hkid h, hkid h⟩, fun h => ⟨hkts h, hkts h⟩, ?_⟩
  simp [Push, lpush]

/-- Witness for C7 at a concrete job with no id and a zero timestamp. -/
theorem c7_defaulting_witness :
    (3 : Nat) ≠ 0
    ∧ (Push "jobs" exJobNoId 3 exEmptyStore).1.id ≠ ""
    ∧ (Push "jobs" exJobNoId 3 exEmptyStore).1.createdAt ≠ 0
    ∧ (PushToDelayedQueue "jobs" exJobNoId 3 9 exEmptyStore).1.id ≠ ""
    ∧ (PushToDelayedQueue "jobs" exJobNoId 3 9 exEmptyStore).1.createdAt ≠ 0 :=
  ⟨by decide,
    (c7_defaulting "jobs" exJobNoId 3 9 exEmptyStore (by decide)).1.1,
    (c7_defaulting "jobs" exJobNoId 3 9 exEmptyStore (by decide)).1.2.1,
    (c7_defaulting "jobs" exJobNoId 3 9 exEmptyStore (by decide)).1.2.2.1,
    (c7_defaulting "jobs" exJobNoId 3 9 exEmptyStore (by decide)).1.2.2.2⟩

/-- C8: Empty-result is not an error — on an empty queue, the blocking pop
that times out and the non-blocking pop both return the distinguished
"ok, no job" outcome rather than an error. -/
theorem c8_empty_ok (q : String) (tm : Nat) (st : RedisState)
    (hempty : st.lists q = []) :
    (Pop q tm st).1 = .ok none ∧ (PopNonBlocking q st).1 = .ok none := by
  simp [Pop, PopNonBlocking, rpop, hempty]

/-- Witness for C8 on the empty store. -/
theorem c8_empty_ok_witness :
    exEmptyStore.lists "jobs" = []
    ∧ (Pop "jobs" 5 exEmptyStore).1 = .ok none
    ∧ (PopNonBlocking "jobs" exEmptyStore).1 = .ok none :=
  ⟨rfl, (c8_empty_ok "jobs" 5 exEmptyStore rfl).1, (c8_empty_ok "jobs" 5 exEmptyStore rfl).2⟩

/-- C9: Score invariant — the entry a delayed push inserts carries score
`unixSec (now + delay)`, computed once at insertion; and promotion never
recomputes or modifies any remaining entry: every entry of the delayed set
after a promote call was already present, with the same score, before
it. -/
theorem c9_score_invariant (q : String) (j : Job) (now delay t : Nat) (st : RedisState) :
    ((Serialized.jobVal (PushToDelayedQueue q j now delay st).1, unixSec (now + delay))
        ∈ (PushToDelayedQueue q j now delay st).2.zsets (q ++ ":delayed"))
    ∧ ((ProcessDelayedQueue q t st).2.zsets (q ++ ":delayed") ⊆ st.zsets (q ++ ":delayed")) := by
  constructor
  · simp only [PushToDelayedQueue, zadd, if_pos rfl]
    exact zinsert_self_mem _ _ _
  · by_cases h0 : (zrangeByScoreLe (st.zsets (q ++ ":delayed")) (unixSec t)).length = 0
    · simp [ProcessDelayedQueue, h0]
    · simp only [ProcessDelayedQueue, if_neg h0]
      exact execCmds_zsets_subset _ _ _

/-- Witness for C9: the concrete inserted entry carries the insertion
score. -/
theorem c9_score_invariant_witness :
    (Serialized.jobVal (PushToDelayedQueue "jobs" exJobB 9 2000000000 exEmptyStore).1,
      unixSec (9 + 2000000000))
      ∈ (PushToDelayedQueue "jobs" exJobB 9 2000000000 exEmptyStore).2.zsets ("jobs" ++ ":delayed") :=
  (c9_score_invariant "jobs" exJobB 9 2000000000 77 exEmptyStore).1

/-- C10: Clear only empties the live queue — `Clear q` deletes the single
key `q`, so the companion delayed set `q:delayed` is unchanged for every
store; a job pushed delayed before the clear survives it and is still
promoted (and poppable) once its delay elapses. -/
theorem c10_clear_frame (q : String) (j : Job) (now delay t : Nat) (st : RedisState)
    (hdq : st.zsets (q ++ ":delayed") = []) (h2 : now + delay ≤ t) :
    (∀ st2 : RedisState, (Clear q st2).zsets (q ++ ":delayed") = st2.zsets (q ++ ":delayed"))
    ∧ (Clear q (PushToDelayedQueue q j now delay st).2).lists q = []
    ∧ (ProcessDelayedQueue q t (Clear q (PushToDelayedQueue q j now delay st).2)).1 = 1
    ∧ (PopNonBlocking q
        (ProcessDelayedQueue q t (Clear q (PushToDelayedQueue q j now delay st).2)).2).1
        = .ok (some (PushToDelayedQueue q j now delay st).1) := by
  have hframe : ∀ st2 : RedisState,
      (Clear q st2).zsets (q ++ ":delayed") = st2.zsets (q ++ ":delayed") := by
    intro st2
    simp [Clear, del, delayed_key_ne q]
  have hz : (Clear q (PushToDelayedQueue q j now delay st).2).zsets (q ++ ":delayed")
      = [(Serialized.jobVal (defaultJob j now), unixSec (now + delay))] := by
    rw [hframe]; exact pushDelayed_zsets q j now delay st hdq
  have hl : (Clear q (PushToDelayedQueue q j now delay st).2).lists q = [] := by
    simp [Clear, del]
  have hle : unixSec (now + delay) ≤ unixSec t := Nat.div_le_div_right h2
  have hs := promote_singleton q (defaultJob j now) (unixSec (now + delay)) t _ hz hl hle
  exact ⟨hframe, hl, hs.1, hs.2.2.2⟩

/-- Witness for C10: a concrete delayed job survives a clear of the live
queue and is promoted and popped after its delay. -/
theorem c10_clear_frame_witness :
    exEmptyStore.zsets ("jobs" ++ ":delayed") = []
    ∧ 9 + 2000000000 ≤ 3000000000
    ∧ (Clear "jobs" (PushToDelayedQueue "jobs" exDelayedJob 9 2000000000 exEmptyStore).2).lists "jobs" = []
    ∧ (ProcessDelayedQueue "jobs" 3000000000
        (Clear "jobs" (PushToDelayedQueue "jobs" exDelayedJob 9 2000000000 exEmptyStore).2)).1 = 1
    ∧ (PopNonBlocking "jobs"
        (ProcessDelayedQueue "jobs" 3000000000
          (Clear "jobs" (PushToDelayedQueue "jobs" exDelayedJob 9 2000000000 exEmptyStore).2)).2).1
        = .ok (some (PushToDelayedQueue "jobs" exDelayedJob 9 2000000000 exEmptyStore).1) :=
  ⟨rfl, by norm_num,
    (c10_clear_frame "jobs" exDelayedJob 9 2000000000 3000000000 exEmptyStore rfl (by norm_num)).2.1,
    (c10_clear_frame "jobs" exDelayedJob 9 2000000000 3000000000 exEmptyStore rfl (by norm_num)).2.2.1,
    (c10_clear_frame "jobs" exDelayedJob 9 2000000000 3000000000 exEmptyStore rfl (by norm_num)).2.2.2⟩

end RedisModel
